import Mathlib

/-!
Verification development for the funny_farm_capital repository.

Shallow embedding conventions:
* Python floats are modelled as rationals (the claims under study concern
  presence and absence of values and algebraic identities, not binary
  floating-point rounding).
* A float NaN (pandas missing value) is modelled as the value `none` of
  `Option ℚ`; a defined value `v` is `some v`.  Where a pandas/numpy
  operation can also produce an infinity (division by zero), `none` is used
  for that non-finite result as well: every claim treated here only
  distinguishes finite from non-finite values.
* numpy rounding (used by the `.round(k)` calls) rounds half to even; the
  function `npround` below reproduces it on rationals.
* Python truthiness on an optional number (`if x:`) is `truthy` below:
  `None` and `0` are falsy, every other number is truthy.
-/

namespace FFC

/-- Python truthiness of an optional number: None and 0 are falsy. -/
def truthy : Option ℚ → Bool
  | none => false
  | some v => decide (v ≠ 0)

/-- numpy round-half-to-even to an integer, on rationals
(models pandas Series.round(0) and numpy rounding). -/
def npround (q : ℚ) : ℚ :=
  if q - (⌊q⌋ : ℚ) < 1/2 then (⌊q⌋ : ℚ)
  else if 1/2 < q - (⌊q⌋ : ℚ) then (⌊q⌋ : ℚ) + 1
  else if 2 ∣ ⌊q⌋ then (⌊q⌋ : ℚ) else (⌊q⌋ : ℚ) + 1

/-- numpy round to 4 decimal places (models .round(4)). -/
def npround4 (q : ℚ) : ℚ := npround (q * 10000) / 10000

theorem abs_npround_sub_le (q : ℚ) : |npround q - q| ≤ 1/2 := by
  unfold npround
  have h0 : (⌊q⌋ : ℚ) ≤ q := Int.floor_le q
  have h1 : q < (⌊q⌋ : ℚ) + 1 := Int.lt_floor_add_one q
  split
  · next h =>
    rw [abs_le]; constructor <;> linarith
  · split
    · next h h2 =>
      rw [abs_le]; constructor <;> push_neg at h <;> linarith
    · next h h2 =>
      push_neg at h h2
      have hr : q - (⌊q⌋ : ℚ) = 1/2 := le_antisymm h2 h
      split
      · rw [abs_le]; constructor <;> linarith
      · rw [abs_le]; constructor <;> linarith

theorem npround_intCast (n : ℤ) : npround (n : ℚ) = n := by
  rw [npround, Int.floor_intCast]
  rw [if_pos (by norm_num)]

section YearlyMetrics
/-!
Embedding of `StockAnalyzer.get_yearly_metrics` (src/stock_ranking.py,
lines 60-113).  Statement rows are records with a fiscal year and optional
fields; a field absent from the provider's JSON dict is `none` (the code
reads such fields with `.get`, defaulting to 0 or to None exactly as the
source does at each site).
-/

/-- A quarterly income statement row (only the fields the code reads). -/
structure QIncomeRow where
  revenue : Option ℚ
  operatingIncome : Option ℚ
deriving DecidableEq, Repr

/-- An annual income statement row. -/
structure AIncomeRow where
  year : ℤ
  revenue : Option ℚ
  operatingIncome : Option ℚ
deriving DecidableEq, Repr

/-- A balance sheet row. -/
structure BalanceRow where
  year : ℤ
  totalAssets : Option ℚ
  totalCurrentLiabilities : Option ℚ
deriving DecidableEq, Repr

/-- capital employed of a balance row:
totalAssets - totalCurrentLiabilities, each field defaulting to 0
(the code reads both with .get(key, 0)). -/
def capitalOf (b : BalanceRow) : ℚ :=
  b.totalAssets.getD 0 - b.totalCurrentLiabilities.getD 0

/-- the first income row whose date starts with the given year
(models next((x for x in income_stmt if x[date].startswith(str(year))), {})). -/
def findIncomeYear (inc : List AIncomeRow) (y : ℤ) : Option AIncomeRow :=
  inc.find? (fun r => decide (r.year = y))

/-- the first balance row for the given year. -/
def findBalanceYear (bal : List BalanceRow) (y : ℤ) : Option BalanceRow :=
  bal.find? (fun r => decide (r.year = y))

/-- TTM EBIT: sum of operatingIncome over the four most recent quarters,
a missing field contributing 0 (.get with default 0 in the source). -/
def ttmEbit (ttmIncome : List QIncomeRow) : ℚ :=
  ((ttmIncome.take 4).map (fun q => q.operatingIncome.getD 0)).sum

/-- TTM revenue: sum of revenue over the four most recent quarters. -/
def ttmRevenue (ttmIncome : List QIncomeRow) : ℚ :=
  ((ttmIncome.take 4).map (fun q => q.revenue.getD 0)).sum

/-- TTM capital employed, read from the most recent quarterly balance row.
The default row is never reached: the caller only evaluates this when the
quarterly balance list is nonempty. -/
def ttmCapital (ttmBalance : List BalanceRow) : ℚ :=
  capitalOf (ttmBalance.head?.getD ⟨0, none, none⟩)

/-- The (roce, operating margin, revenue growth) entries produced by the
annual-year loop body for one year, lines 91-108 of src/stock_ranking.py.
`none` means the dict key is absent. -/
def annualMetricsAt (inc : List AIncomeRow) (bal : List BalanceRow) (y : ℤ) :
    Option ℚ × Option ℚ × Option ℚ :=
  match findIncomeYear inc y, findBalanceYear bal y with
  | some yd, some bd =>
    let capital := capitalOf bd
    let e := yd.operatingIncome
    let r := yd.revenue
    if capital ≠ 0 ∧ truthy r ∧ truthy e then
      let pr := (findIncomeYear inc (y - 1)).bind (fun p => p.revenue)
      ( some (e.getD 0 / capital),
        some (e.getD 0 / r.getD 0),
        if truthy pr then some ((r.getD 0 - pr.getD 0) / pr.getD 0) else none )
    else (none, none, none)
  | _, _ => (none, none, none)

/-- The sparse metrics dict of get_yearly_metrics, viewed as three maps
from year to optional value. -/
structure YearlyMetrics where
  roce : ℤ → Option ℚ
  opMargin : ℤ → Option ℚ
  revGrowth : ℤ → Option ℚ

/-- Embedding of StockAnalyzer.get_yearly_metrics.  `cy` is the current
calendar year (datetime.now().year); the TTM pseudo-year is keyed by `cy`
and the annual loop covers cy - years .. cy - 1.  An empty quarterly
income or balance fetch short-circuits to the empty dict (line 65-66). -/
def getYearlyMetrics (cy : ℤ) (years : ℕ) (ttmIncome : List QIncomeRow)
    (ttmBalance : List BalanceRow) (incomeStmt : List AIncomeRow)
    (balanceSheet : List BalanceRow) : YearlyMetrics :=
  if ttmIncome.isEmpty ∨ ttmBalance.isEmpty then
    ⟨fun _ => none, fun _ => none, fun _ => none⟩
  else
    let ebit := ttmEbit ttmIncome
    let rev := ttmRevenue ttmIncome
    let cap := ttmCapital ttmBalance
    let ttmOk := cap ≠ 0 ∧ rev ≠ 0
    let lyr := incomeStmt.head?.bind (fun r => r.revenue)
    let inRange := fun (y : ℤ) => cy - years ≤ y ∧ y < cy
    { roce := fun y =>
        if y = cy then (if ttmOk then some (ebit / cap) else none)
        else if inRange y then (annualMetricsAt incomeStmt balanceSheet y).1
        else none,
      opMargin := fun y =>
        if y = cy then (if ttmOk then some (ebit / rev) else none)
        else if inRange y then (annualMetricsAt incomeStmt balanceSheet y).2.1
        else none,
      revGrowth := fun y =>
        if y = cy then
          (if ttmOk ∧ truthy lyr then some ((rev - lyr.getD 0) / lyr.getD 0) else none)
        else if inRange y then (annualMetricsAt incomeStmt balanceSheet y).2.2
        else none }

/-- EBIT figure at a year: for the TTM pseudo-year the summed quarterly
figure (defined whenever the quarterly fetches are nonempty), for an
annual year the operatingIncome field of that year's income row. -/
def ebitAt (cy : ℤ) (ttmIncome : List QIncomeRow) (ttmBalance : List BalanceRow)
    (incomeStmt : List AIncomeRow) (y : ℤ) : Option ℚ :=
  if y = cy then
    (if ttmIncome.isEmpty ∨ ttmBalance.isEmpty then none else some (ttmEbit ttmIncome))
  else (findIncomeYear incomeStmt y).bind (fun r => r.operatingIncome)

/-- Revenue figure at a year (TTM sum at the pseudo-year, else the row field). -/
def revenueAt (cy : ℤ) (ttmIncome : List QIncomeRow) (ttmBalance : List BalanceRow)
    (incomeStmt : List AIncomeRow) (y : ℤ) : Option ℚ :=
  if y = cy then
    (if ttmIncome.isEmpty ∨ ttmBalance.isEmpty then none else some (ttmRevenue ttmIncome))
  else (findIncomeYear incomeStmt y).bind (fun r => r.revenue)

/-- Capital employed at a year: defined when the corresponding balance
row exists (latest quarterly row for the TTM pseudo-year). -/
def capitalAt (cy : ℤ) (ttmIncome : List QIncomeRow) (ttmBalance : List BalanceRow)
    (balanceSheet : List BalanceRow) (y : ℤ) : Option ℚ :=
  if y = cy then
    (if ttmIncome.isEmpty ∨ ttmBalance.isEmpty then none else some (ttmCapital ttmBalance))
  else (findBalanceYear balanceSheet y).map capitalOf

/-- Prior-period revenue for a year: the latest annual revenue for the TTM
pseudo-year (income_stmt[0]), the year-1 row's revenue for an annual year. -/
def prevRevenueAt (cy : ℤ) (incomeStmt : List AIncomeRow) (y : ℤ) : Option ℚ :=
  if y = cy then incomeStmt.head?.bind (fun r => r.revenue)
  else (findIncomeYear incomeStmt (y - 1)).bind (fun r => r.revenue)

theorem truthy_iff (o : Option ℚ) : truthy o = true ↔ ∃ v, o = some v ∧ v ≠ 0 := by
  cases o <;> simp [truthy]

end YearlyMetrics

/-- Claim C1: for every year processed by get_yearly_metrics (the TTM
pseudo-year keyed by the current year, and each of the N annual years), a
ROCE or operating-margin entry is emitted only when the EBIT figure and
capital employed (total assets minus total current liabilities) are
defined and capital employed is nonzero; a revenue-growth entry is
emitted only when the prior-period revenue is defined and nonzero; and a
year whose EBIT, revenue, or capital-employed figure is missing gets no
entry at all (absent, not zero). -/
theorem c1_yearly_metrics_sparsity (cy : ℤ) (years : ℕ) (ttmI : List QIncomeRow)
    (ttmB : List BalanceRow) (inc : List AIncomeRow) (bal : List BalanceRow) (y : ℤ)
    (hy : y = cy ∨ (cy - years ≤ y ∧ y < cy)) :
    ((((getYearlyMetrics cy years ttmI ttmB inc bal).roce y).isSome ∨
      ((getYearlyMetrics cy years ttmI ttmB inc bal).opMargin y).isSome) →
      (ebitAt cy ttmI ttmB inc y).isSome ∧
      ∃ c, capitalAt cy ttmI ttmB bal y = some c ∧ c ≠ 0) ∧
    (((getYearlyMetrics cy years ttmI ttmB inc bal).revGrowth y).isSome →
      ∃ p, prevRevenueAt cy inc y = some p ∧ p ≠ 0) ∧
    ((ebitAt cy ttmI ttmB inc y = none ∨ revenueAt cy ttmI ttmB inc y = none ∨
      capitalAt cy ttmI ttmB bal y = none) →
      (getYearlyMetrics cy years ttmI ttmB inc bal).roce y = none ∧
      (getYearlyMetrics cy years ttmI ttmB inc bal).opMargin y = none ∧
      (getYearlyMetrics cy years ttmI ttmB inc bal).revGrowth y = none) := by
  by_cases hemp : ttmI.isEmpty ∨ ttmB.isEmpty
  · simp only [getYearlyMetrics, if_pos hemp]
    exact ⟨by simp, by simp, by simp⟩
  · have hIB : ¬ttmI = [] ∧ ¬ttmB = [] := by
      simpa [List.isEmpty_iff, not_or] using hemp
    obtain ⟨hI, hB⟩ := hIB
    rcases hy with hcy | hrange
    · subst hcy
      by_cases hok : ttmCapital ttmB ≠ 0 ∧ ttmRevenue ttmI ≠ 0
      · refine ⟨fun _ => ?_, fun h => ?_, fun h => ?_⟩
        · refine ⟨by simp [ebitAt, hI, hB], ttmCapital ttmB,
            by simp [capitalAt, hI, hB], hok.1⟩
        · by_cases hlyr : truthy (inc.head?.bind (fun r => r.revenue)) = true
          · rcases (truthy_iff _).mp hlyr with ⟨p, hp, hp0⟩
            exact ⟨p, by simpa [prevRevenueAt] using hp, hp0⟩
          · exfalso; simp [getYearlyMetrics, hI, hB, hok, hlyr] at h
        · exfalso
          rcases h with h | h | h <;> simp [ebitAt, revenueAt, capitalAt, hI, hB] at h
      · refine ⟨fun h => ?_, fun h => ?_, fun _ => ?_⟩
        · exfalso; simp [getYearlyMetrics, hI, hB, hok] at h
        · exfalso; simp [getYearlyMetrics, hI, hB, hok] at h
        · refine ⟨?_, ?_, ?_⟩ <;> simp [getYearlyMetrics, hI, hB, hok]
    · have hne : y ≠ cy := by omega
      simp only [getYearlyMetrics, List.isEmpty_iff, hI, hB, or_self, if_false,
        ebitAt, revenueAt, capitalAt, prevRevenueAt, if_neg hne, if_pos hrange,
        not_false_eq_true, false_or, or_false]
      cases hfi : findIncomeYear inc y with
      | none =>
        simp only [annualMetricsAt, hfi]
        cases findBalanceYear bal y <;>
          exact ⟨by simp, by simp, fun _ => ⟨by trivial, by trivial, by trivial⟩⟩
      | some yd =>
        cases hfb : findBalanceYear bal y with
        | none =>
          simp only [annualMetricsAt, hfi, hfb]
          exact ⟨by simp, by simp, fun _ => ⟨by trivial, by trivial, by trivial⟩⟩
        | some bd =>
          simp only [annualMetricsAt, hfi, hfb]
          by_cases hcond : capitalOf bd ≠ 0 ∧ truthy yd.revenue = true ∧
              truthy yd.operatingIncome = true
          · rw [if_pos hcond]
            rcases (truthy_iff _).mp hcond.2.2 with ⟨e, he, he0⟩
            rcases (truthy_iff _).mp hcond.2.1 with ⟨r, hr, hr0⟩
            refine ⟨fun _ => ⟨by simp [he], ⟨capitalOf bd, rfl, hcond.1⟩⟩, ?_, ?_⟩
            · intro h
              by_cases hpr : truthy ((findIncomeYear inc (y - 1)).bind
                  (fun p => p.revenue)) = true
              · rcases (truthy_iff _).mp hpr with ⟨p, hp, hp0⟩
                exact ⟨p, hp, hp0⟩
              · simp only [if_neg hpr] at h; simp at h
            · intro h
              rcases h with h | h | h <;> simp [he, hr] at h
          · rw [if_neg hcond]
            exact ⟨by simp, by simp, fun _ => ⟨by trivial, by trivial, by trivial⟩⟩

/-- Witness for C1 at concrete data: one annual year (2024) with complete
figures; the theorem's year-range hypothesis is discharged concretely. -/
theorem c1_yearly_metrics_sparsity_witness :
    ((2024 : ℤ) = 2025 ∨ ((2025 : ℤ) - ((10 : ℕ) : ℤ) ≤ 2024 ∧ (2024 : ℤ) < 2025)) ∧
    (((getYearlyMetrics 2025 10 [⟨some 100, some 10⟩] [⟨2025, some 1000, some 200⟩]
        [⟨2024, some 500, some 100⟩] [⟨2024, some 1000, some 0⟩]).roce 2024).isSome →
      (ebitAt 2025 [⟨some 100, some 10⟩] [⟨2025, some 1000, some 200⟩]
        [⟨2024, some 500, some 100⟩] 2024).isSome ∧
      ∃ c, capitalAt 2025 [⟨some 100, some 10⟩] [⟨2025, some 1000, some 200⟩]
        [⟨2024, some 1000, some 0⟩] 2024 = some c ∧ c ≠ 0) := by
  refine ⟨Or.inr (by norm_num), fun h => ?_⟩
  exact (c1_yearly_metrics_sparsity 2025 10 [⟨some 100, some 10⟩]
    [⟨2025, some 1000, some 200⟩] [⟨2024, some 500, some 100⟩]
    [⟨2024, some 1000, some 0⟩] 2024 (Or.inr (by norm_num))).1 (Or.inl h)

section GrowthMetrics
/-!
Embedding of `StockAnalyzer._calculate_regression` and the per-row growth
computation in `_calculate_growth_metrics` (src/stock_ranking.py, lines
147-176).  scipy.stats.linregress computes the slope as the ratio of the
mean-centered cross sum to the mean-centered x sum and the correlation r
with a special case r = 0 when either centered sum of squares vanishes;
below the centered sums are scaled by n^2 (writing n*Σxy - Σx*Σy etc.),
which leaves both the slope and r^2 unchanged.  The x values are the
calendar years of the defined entries of the metric series; they are
pairwise distinct in every call the engine makes (they come from distinct
column names), so the slope denominator is nonzero there.
-/

/-- number of points, as a rational. -/
def nQ (pts : List (ℤ × ℚ)) : ℚ := pts.length

/-- Σx over the points (x = calendar year). -/
def sumX (pts : List (ℤ × ℚ)) : ℚ := (pts.map (fun p => (p.1 : ℚ))).sum

/-- Σy over the points (y = metric value). -/
def sumY (pts : List (ℤ × ℚ)) : ℚ := (pts.map (fun p => p.2)).sum

/-- Σx² over the points. -/
def sumXX (pts : List (ℤ × ℚ)) : ℚ := (pts.map (fun p => ((p.1 : ℚ)) ^ 2)).sum

/-- Σxy over the points. -/
def sumXY (pts : List (ℤ × ℚ)) : ℚ := (pts.map (fun p => (p.1 : ℚ) * p.2)).sum

/-- Σy² over the points. -/
def sumYY (pts : List (ℤ × ℚ)) : ℚ := (pts.map (fun p => p.2 ^ 2)).sum

/-- n²-scaled centered sum Σ(x-x̄)². -/
def ssxm (pts : List (ℤ × ℚ)) : ℚ := nQ pts * sumXX pts - sumX pts ^ 2

/-- n²-scaled centered sum Σ(y-ȳ)². -/
def ssym (pts : List (ℤ × ℚ)) : ℚ := nQ pts * sumYY pts - sumY pts ^ 2

/-- n²-scaled centered cross sum Σ(x-x̄)(y-ȳ). -/
def ssxym (pts : List (ℤ × ℚ)) : ℚ := nQ pts * sumXY pts - sumX pts * sumY pts

/-- ordinary least-squares slope of y against x (scipy linregress slope). -/
def olsSlope (pts : List (ℤ × ℚ)) : ℚ := ssxym pts / ssxm pts

/-- the squared correlation coefficient r², with scipy's special case
r = 0 when the y values have zero centered variance. -/
def rSquared (pts : List (ℤ × ℚ)) : ℚ :=
  if ssym pts = 0 then 0 else ssxym pts ^ 2 / (ssxm pts * ssym pts)

/-- Embedding of StockAnalyzer._calculate_regression: slope * r² when
more than one point is given, NaN (none) otherwise. -/
def calcRegression (pts : List (ℤ × ℚ)) : Option ℚ :=
  if 1 < pts.length then some (olsSlope pts * rSquared pts) else none

/-- the (year, value) pairs of the defined entries of a metric series
(the per-row notna filter in _calculate_growth_metrics). -/
def definedPts (cols : List (ℤ × Option ℚ)) : List (ℤ × ℚ) :=
  cols.filterMap (fun p => p.2.map (fun v => (p.1, v)))

/-- the growth value of one metric series in _calculate_growth_metrics:
NaN when the row has no defined values for the metric, else the
_calculate_regression result on the defined (year, value) points. -/
def growthScore (cols : List (ℤ × Option ℚ)) : Option ℚ :=
  if (definedPts cols).isEmpty then none else calcRegression (definedPts cols)

end GrowthMetrics

/-- Claim C2: a metric series with at least two defined yearly values gets
the growth score slope × r² of the least-squares regression of value
against calendar year; a series with fewer than two defined years (in
particular exactly one) gets an undefined growth value (NaN, never a
numeric default). -/
theorem c2_growth_score_regression (cols : List (ℤ × Option ℚ)) :
    (2 ≤ (definedPts cols).length →
      growthScore cols = some (olsSlope (definedPts cols) * rSquared (definedPts cols))) ∧
    ((definedPts cols).length < 2 → growthScore cols = none) ∧
    ((definedPts cols).length = 1 → growthScore cols = none) := by
  refine ⟨fun h2 => ?_, fun hlt => ?_, fun h1 => ?_⟩
  · have hne : ¬(definedPts cols).isEmpty := by
      cases h : definedPts cols with
      | nil => rw [h] at h2; simp at h2
      | cons a t => simp [h]
    rw [growthScore, if_neg (by simp [hne]), calcRegression, if_pos (by omega)]
  · rw [growthScore]
    split
    · rfl
    · rw [calcRegression, if_neg (by omega)]
  · rw [growthScore]
    split
    · rfl
    · rw [calcRegression, if_neg (by omega)]

/-- Witness for C2: a two-point series gets the slope × r² value; a
one-point series gets none. -/
theorem c2_growth_score_regression_witness :
    (2 ≤ (definedPts [((2023 : ℤ), some (1 : ℚ)), (2024, some 2)]).length ∧
      growthScore [((2023 : ℤ), some (1 : ℚ)), (2024, some 2)] =
        some (olsSlope (definedPts [((2023 : ℤ), some (1 : ℚ)), (2024, some 2)]) *
          rSquared (definedPts [((2023 : ℤ), some (1 : ℚ)), (2024, some 2)]))) ∧
    ((definedPts [((2023 : ℤ), some (1 : ℚ)), (2024, none)]).length = 1 ∧
      growthScore [((2023 : ℤ), some (1 : ℚ)), (2024, none)] = none) := by
  constructor
  · exact ⟨by decide, (c2_growth_score_regression _).1 (by decide)⟩
  · exact ⟨by decide, (c2_growth_score_regression _).2.2 (by decide)⟩

section Ranking
/-!
Embedding of `StockAnalyzer._calculate_rankings` (src/stock_ranking.py,
lines 178-206).  A universe row carries the symbol, the sector label
(`none` models a NaN sector, which the pandas sector loop never selects:
the equality mask of a NaN sector matches no row) and the five metric
columns.  pandas `rank` with method=min assigns each entry a rank
determined only by its own value and the multiset of column values, which
is what `rankDesc` / `rankAscKeep` compute; the trailing
`sort_values(final_rank)` only permutes rows and is omitted here (every
claim below is about per-row rank values or row multisets).
-/

/-- One row of the combined universe table entering _calculate_rankings. -/
structure URow where
  symbol : String
  sector : Option String
  roce_growth : Option ℚ
  roce_current_year : Option ℚ
  operating_margin_growth : Option ℚ
  operating_margin_current_year : Option ℚ
  revenue_growth_current_year : Option ℚ
deriving DecidableEq, Repr

/-- pandas Series.rank(ascending=False, method=min, na_option=bottom) of
one entry within a column: a defined value v ranks 1 + (number of defined
entries strictly greater than v); undefined entries all share the rank
(number of defined entries) + 1, below every defined entry. -/
def rankDesc (col : List (Option ℚ)) (o : Option ℚ) : ℚ :=
  match o with
  | some v =>
      1 + ((col.countP (fun u => match u with | some w => decide (v < w) | none => false) : ℕ) : ℚ)
  | none => ((col.countP (fun u => u.isSome) : ℕ) : ℚ) + 1

/-- pandas Series.rank(method=min) with the default na_option=keep (used
for final_rank): a defined value ranks 1 + (number of defined entries
strictly smaller); an undefined value keeps NaN. -/
def rankAscKeep (col : List (Option ℚ)) (o : Option ℚ) : Option ℚ :=
  o.map (fun v =>
    1 + ((col.countP (fun u => match u with | some w => decide (w < v) | none => false) : ℕ) : ℚ))

/-- the sub-universe of rows carrying the given sector label
(the mask df[sector] == sector of the sector loop). -/
def sectorRows (u : List URow) (s : String) : List URow :=
  u.filter (fun r => decide (r.sector = some s))

/-- cross-universe rank of a row's metric value (used for the three
growth metrics, with ascending=False over the negation semantics of the
source: higher value gets rank 1). -/
def globalRank (u : List URow) (f : URow → Option ℚ) (r : URow) : ℚ :=
  rankDesc (u.map f) (f r)

/-- sector-relative rank of a row's metric value; a row with an undefined
sector label is never assigned by any iteration of the sector loop and
keeps NaN. -/
def sectorRank (u : List URow) (f : URow → Option ℚ) (r : URow) : Option ℚ :=
  r.sector.map (fun s => rankDesc ((sectorRows u s).map f) (f r))

/-- caller-supplied rank weights (defaults 0.25/0.20/0.25/0.20/0.10). -/
structure Weights where
  roceGrowth : ℚ
  roceCY : ℚ
  opMarginGrowth : ℚ
  opMarginCY : ℚ
  revGrowthCY : ℚ
deriving DecidableEq, Repr

def defaultWeights : Weights := ⟨1/4, 1/5, 1/4, 1/5, 1/10⟩

/-- final_score: weighted sum of the five rank columns; NaN whenever a
sector-relative rank is NaN (pandas propagates NaN through the sum). -/
def finalScore (w : Weights) (u : List URow) (r : URow) : Option ℚ :=
  match sectorRank u (fun x => x.roce_current_year) r,
        sectorRank u (fun x => x.operating_margin_current_year) r with
  | some a, some b =>
      some (globalRank u (fun x => x.roce_growth) r * w.roceGrowth +
            globalRank u (fun x => x.operating_margin_growth) r * w.opMarginGrowth +
            globalRank u (fun x => x.revenue_growth_current_year) r * w.revGrowthCY +
            a * w.roceCY + b * w.opMarginCY)
  | _, _ => none

/-- final_rank: competition rank of final_score, ascending. -/
def finalRank (w : Weights) (u : List URow) (r : URow) : Option ℚ :=
  rankAscKeep (u.map (finalScore w u)) (finalScore w u r)

/-- the per-row output record of _calculate_rankings. -/
structure RankRecord where
  symbol : String
  roce_growth_rank : ℚ
  operating_margin_growth_rank : ℚ
  revenue_growth_current_year_rank : ℚ
  roce_current_year_rank : Option ℚ
  operating_margin_current_year_rank : Option ℚ
  final_score : Option ℚ
  final_rank : Option ℚ
deriving DecidableEq, Repr

def rankRecord (w : Weights) (u : List URow) (r : URow) : RankRecord where
  symbol := r.symbol
  roce_growth_rank := globalRank u (fun x => x.roce_growth) r
  operating_margin_growth_rank := globalRank u (fun x => x.operating_margin_growth) r
  revenue_growth_current_year_rank := globalRank u (fun x => x.revenue_growth_current_year) r
  roce_current_year_rank := sectorRank u (fun x => x.roce_current_year) r
  operating_margin_current_year_rank := sectorRank u (fun x => x.operating_margin_current_year) r
  final_score := finalScore w u r
  final_rank := finalRank w u r

/-- the full ranking table (one record per universe row, in input order). -/
def rankTable (w : Weights) (u : List URow) : List RankRecord :=
  u.map (rankRecord w u)

theorem rankDesc_perm {c₁ c₂ : List (Option ℚ)} (h : c₁.Perm c₂) (o : Option ℚ) :
    rankDesc c₁ o = rankDesc c₂ o := by
  cases o <;> simp [rankDesc, h.countP_eq]

theorem rankAscKeep_perm {c₁ c₂ : List (Option ℚ)} (h : c₁.Perm c₂) (o : Option ℚ) :
    rankAscKeep c₁ o = rankAscKeep c₂ o := by
  cases o <;> simp [rankAscKeep, h.countP_eq]

theorem countP_lt_countP_of_mem {α : Type} {l : List α} {p q : α → Bool}
    (hpq : ∀ x ∈ l, p x → q x) (x : α) (hx : x ∈ l) (hqx : q x) (hpx : p x = false) :
    l.countP p < l.countP q := by
  induction l with
  | nil => cases hx
  | cons a t ih =>
    rcases List.mem_cons.mp hx with rfl | hxt
    · rw [List.countP_cons, List.countP_cons, hpx, hqx, if_pos rfl,
        if_neg Bool.false_ne_true]
      have h2 : List.countP p t ≤ List.countP q t :=
        List.countP_mono_left (fun y hy hp => hpq y (List.mem_cons_of_mem _ hy) hp)
      omega
    · have hlt := ih (fun y hy hp => hpq y (List.mem_cons_of_mem _ hy) hp) hxt
      rw [List.countP_cons, List.countP_cons]
      have hcond : (if p a = true then 1 else 0) ≤ (if q a = true then 1 else 0) := by
        by_cases hpa : p a = true
        · rw [if_pos hpa, if_pos (hpq a (List.mem_cons_self a t) hpa)]
        · rw [if_neg hpa]
          split <;> omega
      omega

/-- Competition ranks of a duplicate-free list of values form a
permutation of 1..n: the rank map v ↦ 1 + #(strictly greater) sends the
list to the interval, maximal element first. -/
theorem rank_map_perm : ∀ (n : ℕ) (l : List ℚ), l.length = n → l.Nodup →
    (l.map (fun v => 1 + l.countP (fun w => decide (v < w)))).Perm
      (List.range' 1 l.length) := by
  intro n
  induction n with
  | zero =>
    intro l hlen _
    rw [List.length_eq_zero] at hlen
    subst hlen
    simp
  | succ n ih =>
    intro l hlen hnd
    have hne : l ≠ [] := by intro h; subst h; simp at hlen
    have hb := List.maximum_ne_bot_of_ne_nil hne
    obtain ⟨m, hm⟩ := Option.ne_none_iff_exists.mp hb
    have hm' : l.maximum = (m : WithBot ℚ) := hm.symm
    have hmem : m ∈ l := List.maximum_mem hm'
    have hle : ∀ a ∈ l, a ≤ m := fun a ha => List.le_maximum_of_mem ha hm'
    set l' := l.erase m with hl'
    have hperm : l.Perm (m :: l') := List.perm_cons_erase hmem
    have hlen' : l'.length = n := by
      have := List.length_erase_of_mem hmem
      rw [hlen] at this
      simpa [hl'] using this
    have hnd' : l'.Nodup := hnd.erase m
    have hlt : ∀ x ∈ l', x < m := by
      intro x hx
      have hxl : x ∈ l := List.mem_of_mem_erase hx
      have hne' : x ≠ m := by
        intro h; subst h
        exact (List.Nodup.not_mem_erase hnd) hx
      exact lt_of_le_of_ne (hle x hxl) hne'
    have hcount_m : l.countP (fun w => decide (m < w)) = 0 :=
      List.countP_eq_zero.mpr (fun a ha => by simp [not_lt.mpr (hle a ha)])
    have hcount_x : ∀ x ∈ l', l.countP (fun w => decide (x < w)) =
        l'.countP (fun w => decide (x < w)) + 1 := by
      intro x hx
      rw [hperm.countP_eq, List.countP_cons]
      simp [hlt x hx]
    have hstep1 : (l.map (fun v => 1 + l.countP (fun w => decide (v < w)))).Perm
        ((1 + l.countP (fun w => decide (m < w))) ::
          l'.map (fun v => 1 + l.countP (fun w => decide (v < w)))) :=
      hperm.map _
    have hstep2 : l'.map (fun v => 1 + l.countP (fun w => decide (v < w))) =
        l'.map (fun v => 1 + (1 + l'.countP (fun w => decide (v < w)))) := by
      apply List.map_congr_left
      intro x hx
      rw [hcount_x x hx]
      omega
    have hih := ih l' hlen' hnd'
    have hstep3 : (l'.map (fun v => 1 + (1 + l'.countP (fun w => decide (v < w))))).Perm
        ((List.range' 1 l'.length).map (fun x => 1 + x)) := by
      have := hih.map (fun x => 1 + x)
      simpa [Function.comp] using this
    have hstep4 : (List.range' 1 l'.length).map (fun x => 1 + x) = List.range' 2 l'.length :=
      List.map_add_range' 1 1 l'.length 1
    rw [hcount_m, hstep2] at hstep1
    simp only [Nat.add_zero] at hstep1
    have hfinal : ((1 : ℕ) ::
        l'.map (fun v => 1 + (1 + l'.countP (fun w => decide (v < w))))).Perm
        (List.range' 1 l.length) := by
      rw [hlen, List.range'_succ]
      apply List.Perm.cons
      rw [← hlen', ← hstep4]
      exact hstep3
    exact hstep1.trans hfinal

theorem filterMap_id_of_all_isSome (l : List (Option ℚ)) (h : ∀ o ∈ l, o.isSome) :
    l.filterMap id = l.map (fun o => o.getD 0) := by
  induction l with
  | nil => rfl
  | cons a t ih =>
    cases a with
    | none => exact absurd (h none (List.mem_cons_self _ _)) (by simp)
    | some v =>
      simp only [List.filterMap_cons, List.map_cons, id, Option.getD_some]
      rw [ih (fun o ho => h o (List.mem_cons_of_mem _ ho))]

theorem countP_option_bridge (col : List (Option ℚ)) (p : ℚ → Bool) :
    col.countP (fun u => match u with | some w => p w | none => false) =
    (col.filterMap id).countP p := by
  induction col with
  | nil => rfl
  | cons a t ih =>
    cases a with
    | none => simpa [List.countP_cons] using ih
    | some v => simp [List.countP_cons, List.filterMap_cons, ih]

/-- All-defined, duplicate-free sector values get competition ranks that
are a permutation of 1..(number of sector rows). -/
theorem rankDesc_all_defined_perm (rs : List URow) (f : URow → Option ℚ)
    (hdef : ∀ r ∈ rs, (f r).isSome)
    (hnd : ((rs.map f).filterMap id).Nodup) :
    (rs.map (fun r => rankDesc (rs.map f) (f r))).Perm
      ((List.range' 1 rs.length).map (Nat.cast : ℕ → ℚ)) := by
  have hcoldef : ∀ o ∈ rs.map f, o.isSome := by
    intro o ho
    rcases List.mem_map.mp ho with ⟨r, hr, rfl⟩
    exact hdef r hr
  have hv : (rs.map f).filterMap id = (rs.map f).map (fun o => o.getD 0) :=
    filterMap_id_of_all_isSome _ hcoldef
  have hmapeq : rs.map (fun r => rankDesc (rs.map f) (f r)) =
      ((rs.map f).filterMap id).map
        (fun v => (((1 + ((rs.map f).filterMap id).countP (fun w => decide (v < w))) : ℕ) : ℚ)) := by
    rw [hv, List.map_map, List.map_map]
    apply List.map_congr_left
    intro r hr
    rcases Option.isSome_iff_exists.mp (hdef r hr) with ⟨v, hvr⟩
    simp only [Function.comp, hvr, Option.getD_some, rankDesc]
    rw [← hv, countP_option_bridge, hv]
    push_cast
    ring
  rw [hmapeq]
  have hlen : ((rs.map f).filterMap id).length = rs.length := by
    rw [hv]; simp
  have hperm := rank_map_perm ((rs.map f).filterMap id).length
    ((rs.map f).filterMap id) rfl hnd
  have htc := hperm.map (Nat.cast : ℕ → ℚ)
  rw [← hlen]
  simpa [Function.comp_def] using htc

end Ranking

/-- Claim C3: in _calculate_rankings the three growth metrics are ranked
across the whole universe (highest value gets rank 1, ties share the
minimum rank, undefined values rank strictly after every defined one),
while roce_current_year and operating_margin_current_year are ranked
within each sector only: a row's sector rank is computed from the rows
of its own sector alone (so it is unchanged by adding, removing or
altering rows outside the sector), sector ranks lie in 1..|S|, and when
the sector's values are all defined and pairwise distinct they form a
permutation of 1..|S|. -/
theorem c3_ranking_semantics (w : Weights) (u : List URow) :
    (∀ r, (rankRecord w u r).roce_growth_rank =
        rankDesc (u.map (fun x => x.roce_growth)) r.roce_growth ∧
      (rankRecord w u r).operating_margin_growth_rank =
        rankDesc (u.map (fun x => x.operating_margin_growth)) r.operating_margin_growth ∧
      (rankRecord w u r).revenue_growth_current_year_rank =
        rankDesc (u.map (fun x => x.revenue_growth_current_year)) r.revenue_growth_current_year ∧
      (rankRecord w u r).roce_current_year_rank =
        r.sector.map (fun s =>
          rankDesc ((sectorRows u s).map (fun x => x.roce_current_year)) r.roce_current_year) ∧
      (rankRecord w u r).operating_margin_current_year_rank =
        r.sector.map (fun s =>
          rankDesc ((sectorRows u s).map (fun x => x.operating_margin_current_year))
            r.operating_margin_current_year)) ∧
    (∀ (col : List (Option ℚ)) (v : ℚ),
      (∀ o ∈ col, ∀ w', o = some w' → w' ≤ v) → rankDesc col (some v) = 1) ∧
    (∀ (col : List (Option ℚ)) (o₁ o₂ : Option ℚ), o₁ = o₂ →
      rankDesc col o₁ = rankDesc col o₂) ∧
    (∀ (col : List (Option ℚ)) (v : ℚ), some v ∈ col →
      rankDesc col (some v) < rankDesc col none) ∧
    (∀ (u' : List URow) (f : URow → Option ℚ) (s : String) (r : URow),
      r.sector = some s → sectorRows u' s = sectorRows u s →
      sectorRank u' f r = sectorRank u f r) ∧
    (∀ (s : String) (f : URow → Option ℚ) (r : URow), r ∈ sectorRows u s →
      1 ≤ rankDesc ((sectorRows u s).map f) (f r) ∧
      rankDesc ((sectorRows u s).map f) (f r) ≤ ((sectorRows u s).length : ℚ)) ∧
    (∀ (s : String) (f : URow → Option ℚ),
      (∀ r ∈ sectorRows u s, (f r).isSome) →
      (((sectorRows u s).map f).filterMap id).Nodup →
      ((sectorRows u s).map (fun r => rankDesc ((sectorRows u s).map f) (f r))).Perm
        ((List.range' 1 (sectorRows u s).length).map (Nat.cast : ℕ → ℚ))) := by
  refine ⟨fun r => ⟨rfl, rfl, rfl, rfl, rfl⟩, ?_, ?_, ?_, ?_, ?_, ?_⟩
  · intro col v hmax
    have hzero : col.countP (fun o => match o with | some w => decide (v < w) | none => false) = 0 := by
      apply List.countP_eq_zero.mpr
      intro o ho
      cases o with
      | none => simp
      | some w' => simpa using not_lt.mpr (hmax (some w') ho w' rfl)
    simp [rankDesc, hzero]
  · intro col o₁ o₂ h
    rw [h]
  · intro col v hv
    have hlt : col.countP (fun o => match o with | some w => decide (v < w) | none => false) <
        col.countP (fun o => o.isSome) := by
      apply countP_lt_countP_of_mem (x := some v) _ hv
      · simp
      · simp
      · intro o ho hp
        cases o with
        | none => simp at hp
        | some w' => simp
    simp only [rankDesc]
    have : (col.countP (fun o => match o with | some w => decide (v < w) | none => false) : ℚ) + 1 ≤
        (col.countP (fun o => o.isSome) : ℚ) := by exact_mod_cast hlt
    linarith
  · intro u' f s r hs hrows
    simp [sectorRank, hs, hrows]
  · intro s f r hr
    constructor
    · cases hfr : f r with
      | none =>
        simp only [rankDesc]
        have : (0 : ℚ) ≤ (((sectorRows u s).map f).countP (fun o => o.isSome) : ℚ) := by
          positivity
        linarith
      | some v =>
        simp only [rankDesc]
        have : (0 : ℚ) ≤ ((((sectorRows u s).map f).countP
            (fun o => match o with | some w => decide (v < w) | none => false)) : ℚ) := by
          positivity
        linarith
    · have hmem : f r ∈ (sectorRows u s).map f := List.mem_map_of_mem f hr
      cases hfr : f r with
      | none =>
        rw [hfr] at hmem
        have hlt : ((sectorRows u s).map f).countP (fun o => o.isSome) <
            ((sectorRows u s).map f).countP (fun _ => true) := by
          apply countP_lt_countP_of_mem (x := (none : Option ℚ)) _ hmem
          · simp
          · simp
          · intro o ho hp
            simp
        rw [List.countP_true, List.length_map] at hlt
        simp only [rankDesc]
        have : (((sectorRows u s).map f).countP (fun o => o.isSome) : ℚ) + 1 ≤
            ((sectorRows u s).length : ℚ) := by exact_mod_cast hlt
        linarith
      | some v =>
        rw [hfr] at hmem
        have hlt : ((sectorRows u s).map f).countP
            (fun o => match o with | some w => decide (v < w) | none => false) <
            ((sectorRows u s).map f).countP (fun _ => true) := by
          apply countP_lt_countP_of_mem (x := some v) _ hmem
          · simp
          · simp
          · intro o ho hp
            simp
        rw [List.countP_true, List.length_map] at hlt
        simp only [rankDesc]
        have : (((sectorRows u s).map f).countP
            (fun o => match o with | some w => decide (v < w) | none => false) : ℚ) + 1 ≤
            ((sectorRows u s).length : ℚ) := by exact_mod_cast hlt
        linarith
  · intro s f hdef hnd
    exact rankDesc_all_defined_perm (sectorRows u s) f hdef hnd

/-- Witness for C3 at a concrete column: the largest defined value of
[1, 2] receives rank 1, the maximality hypothesis discharged by decide. -/
theorem c3_ranking_semantics_witness :
    (∀ o ∈ [some (1 : ℚ), some 2], ∀ w', o = some w' → w' ≤ 2) ∧
    rankDesc [some (1 : ℚ), some 2] (some 2) = 1 := by
  refine ⟨by decide, ?_⟩
  exact (c3_ranking_semantics defaultWeights []).2.1 [some 1, some 2] 2 (by decide)

/-- Claim C7: the per-symbol rank record (all five rank columns,
final_score and final_rank) is invariant under any permutation of the
row order of the input universe, and the output table of a permuted
universe is the correspondingly permuted table. -/
theorem c7_ranking_permutation_invariant (w : Weights) {u₁ u₂ : List URow}
    (hp : u₁.Perm u₂) :
    (∀ r, rankRecord w u₁ r = rankRecord w u₂ r) ∧
    (rankTable w u₁).Perm (rankTable w u₂) := by
  have hglobal : ∀ (f : URow → Option ℚ) (r : URow),
      globalRank u₁ f r = globalRank u₂ f r :=
    fun f r => rankDesc_perm (hp.map f) (f r)
  have hsector : ∀ (f : URow → Option ℚ) (r : URow),
      sectorRank u₁ f r = sectorRank u₂ f r := by
    intro f r
    cases hrs : r.sector with
    | none => simp [sectorRank, hrs]
    | some s =>
      have hsp : ((sectorRows u₁ s).map f).Perm ((sectorRows u₂ s).map f) :=
        (hp.filter _).map f
      simp [sectorRank, hrs, rankDesc_perm hsp]
  have hfs : ∀ r, finalScore w u₁ r = finalScore w u₂ r := by
    intro r
    simp only [finalScore, hglobal, hsector]
  have hcols : (u₁.map (finalScore w u₁)).Perm (u₂.map (finalScore w u₂)) := by
    have he : u₁.map (finalScore w u₁) = u₁.map (finalScore w u₂) :=
      List.map_congr_left (fun r _ => hfs r)
    rw [he]
    exact hp.map _
  have hfr : ∀ r, finalRank w u₁ r = finalRank w u₂ r := by
    intro r
    rw [finalRank, finalRank, hfs r, rankAscKeep_perm hcols]
  have hrec : ∀ r, rankRecord w u₁ r = rankRecord w u₂ r := by
    intro r
    simp only [rankRecord, hglobal, hsector, hfs, hfr]
  refine ⟨hrec, ?_⟩
  have he : rankTable w u₁ = u₁.map (rankRecord w u₂) :=
    List.map_congr_left (fun r _ => hrec r)
  rw [rankTable, he] at *
  exact hp.map _

/-- sample universe rows used by the concrete witnesses below. -/
def sampleRowA : URow := ⟨"AAA", some "Tech", some 1, some 1, some 1, some 1, some 1⟩

def sampleRowB : URow := ⟨"BBB", some "Tech", some 2, some 2, some 2, some 2, some 2⟩

/-- Witness for C7: swapping the two rows of a concrete universe leaves
the first row's rank record unchanged. -/
theorem c7_ranking_permutation_invariant_witness :
    ([sampleRowA, sampleRowB].Perm [sampleRowB, sampleRowA]) ∧
    rankRecord defaultWeights [sampleRowA, sampleRowB] sampleRowA =
      rankRecord defaultWeights [sampleRowB, sampleRowA] sampleRowA := by
  have hp : [sampleRowA, sampleRowB].Perm [sampleRowB, sampleRowA] :=
    List.Perm.swap sampleRowB sampleRowA []
  exact ⟨hp, (c7_ranking_permutation_invariant defaultWeights hp).1 sampleRowA⟩

/-- Claim C10: every universe row with a defined sector label gets a
numeric (non-NaN) final_score and final_rank — even when all five of its
metric values are undefined, since undefined values receive numeric
bottom ranks — and no row is dropped from the output table. -/
theorem c10_defined_sector_numeric_score (w : Weights) (u : List URow) (r : URow)
    (s : String) (hmem : r ∈ u) (hs : r.sector = some s) :
    ((rankRecord w u r).final_score).isSome ∧
    ((rankRecord w u r).final_rank).isSome ∧
    (rankTable w u).length = u.length ∧
    rankRecord w u r ∈ rankTable w u := by
  have hsr : ∀ f : URow → Option ℚ, (sectorRank u f r).isSome := by
    intro f
    simp [sectorRank, hs]
  have hfs : (finalScore w u r).isSome := by
    rcases Option.isSome_iff_exists.mp (hsr (fun x => x.roce_current_year)) with ⟨a, ha⟩
    rcases Option.isSome_iff_exists.mp
      (hsr (fun x => x.operating_margin_current_year)) with ⟨b, hb⟩
    simp [finalScore, ha, hb]
  refine ⟨hfs, ?_, by simp [rankTable], List.mem_map_of_mem _ hmem⟩
  rcases Option.isSome_iff_exists.mp hfs with ⟨v, hv⟩
  have : (rankRecord w u r).final_rank = finalRank w u r := rfl
  rw [this, finalRank, hv]
  simp [rankAscKeep]

/-- a universe row with a defined sector and all five metrics undefined. -/
def sampleRowNaN : URow := ⟨"ZZZ", some "Tech", none, none, none, none, none⟩

/-- Witness for C10: a one-row universe whose row has a sector but no
metric data still gets a defined final_score and final_rank. -/
theorem c10_defined_sector_numeric_score_witness :
    (sampleRowNaN ∈ [sampleRowNaN] ∧ sampleRowNaN.sector = some "Tech") ∧
    (((rankRecord defaultWeights [sampleRowNaN] sampleRowNaN).final_score).isSome ∧
      ((rankRecord defaultWeights [sampleRowNaN] sampleRowNaN).final_rank).isSome) := by
  refine ⟨⟨List.mem_singleton_self _, rfl⟩, ?_⟩
  have h := c10_defined_sector_numeric_score defaultWeights [sampleRowNaN] sampleRowNaN
    "Tech" (List.mem_singleton_self _) rfl
  exact ⟨h.1, h.2.1⟩

section TrendDetector
/-!
Embedding of `EarlyTrendDetector.identify_trend` and `get_trend_signals`
(src/utils/stock_processing.py, lines 163-263).  The indicator columns
produced by `calculate_indicators` are taken as the input frame: claims
C5 and C6 quantify over the indicator series, and the cited code reads
only the latest one or two entries of each column.  `last1`/`last2` model
iloc[-1] and iloc[-2]; their 0 default is never exercised on the frames
the Python code accepts (it raises on shorter series).  Python's
`x or default` idiom (used for the lookback period and the minimum
score) falls back to the configured value when the argument is None or
zero; `effectiveLookback` and `effectiveMinScore` reproduce that.
-/

inductive TrendDir
  | up
  | down
deriving DecidableEq, Repr

def dirName : TrendDir → String
  | .up => "up"
  | .down => "down"

/-- the indicator-augmented OHLCV frame (one list per column, in
chronological order). -/
structure Frame where
  close : List ℚ
  sma10 : List ℚ
  sma20 : List ℚ
  volRatioCol : List ℚ
  rsi : List ℚ
  roc5 : List ℚ
  macd : List ℚ
  macdSig : List ℚ
  bbMid : List ℚ
  bbUp : List ℚ
  bbLow : List ℚ
deriving DecidableEq, Repr

/-- trend detection configuration (config[trend_detection]). -/
structure TrendConfig where
  lookbackPeriod : ℕ
  wPriceMa : ℚ
  wVolume : ℚ
  wMomentum : ℚ
  wMacd : ℚ
  wBollinger : ℚ
  thVolRatio : ℚ
  thRsiLower : ℚ
  thRsiUpper : ℚ
  minScore : ℚ
deriving DecidableEq, Repr

/-- iloc[-1] of a column. -/
def last1 (l : List ℚ) : ℚ := l.getLast?.getD 0

/-- iloc[-2] of a column. -/
def last2 (l : List ℚ) : ℚ := l.dropLast.getLast?.getD 0

/-- iloc[-k:] of a column (Python: -0 is 0, so k = 0 takes the whole
series). -/
def lastWindow (k : ℕ) (l : List ℚ) : List ℚ :=
  if k = 0 then l else l.drop (l.length - k)

/-- Python `arg or cfg` for the lookback period (None and 0 fall back). -/
def effectiveLookback (arg : Option ℕ) (cfg : TrendConfig) : ℕ :=
  match arg with
  | some k => if k ≠ 0 then k else cfg.lookbackPeriod
  | none => cfg.lookbackPeriod

/-- Python `arg or cfg` for the minimum score (None and 0 fall back). -/
def effectiveMinScore (arg : Option ℚ) (cfg : TrendConfig) : ℚ :=
  match arg with
  | some m => if m ≠ 0 then m else cfg.minScore
  | none => cfg.minScore

/-- the per-factor and total scores returned by identify_trend. -/
structure TrendScores where
  maScore : ℚ
  volScore : ℚ
  momentumScore : ℚ
  macdScore : ℚ
  bbScore : ℚ
  totalScore : ℚ
deriving DecidableEq, Repr

/-- Embedding of EarlyTrendDetector.identify_trend. -/
def identifyTrend (df : Frame) (cfg : TrendConfig) (lookbackArg : Option ℕ)
    (dir : TrendDir) : TrendScores :=
  let lookback := effectiveLookback lookbackArg cfg
  let maScore : ℚ :=
    match dir with
    | .up =>
      if last1 df.close > last1 df.sma10 ∧ last1 df.sma10 > last1 df.sma20 then
        cfg.wPriceMa else 0
    | .down =>
      if last1 df.close < last1 df.sma10 ∧ last1 df.sma10 < last1 df.sma20 then
        cfg.wPriceMa else 0
  let volScore : ℚ :=
    if (lastWindow lookback df.volRatioCol).any (fun x => decide (x > cfg.thVolRatio)) then
      cfg.wVolume else 0
  let momentumScore : ℚ :=
    match dir with
    | .up =>
      if last1 df.rsi > cfg.thRsiLower ∧ last1 df.rsi < cfg.thRsiUpper ∧
          last1 df.roc5 > 0 then cfg.wMomentum else 0
    | .down =>
      if last1 df.rsi < cfg.thRsiUpper ∧ last1 df.rsi > cfg.thRsiLower ∧
          last1 df.roc5 < 0 then cfg.wMomentum else 0
  let macdScore : ℚ :=
    match dir with
    | .up =>
      if last1 df.macd > last1 df.macdSig ∧ last2 df.macd ≤ last2 df.macdSig then
        cfg.wMacd else 0
    | .down =>
      if last1 df.macd < last1 df.macdSig ∧ last2 df.macd ≥ last2 df.macdSig then
        cfg.wMacd else 0
  let bbScore : ℚ :=
    match dir with
    | .up =>
      if last1 df.close > last1 df.bbMid ∧ last1 df.close < last1 df.bbUp then
        cfg.wBollinger else 0
    | .down =>
      if last1 df.close < last1 df.bbMid ∧ last1 df.close > last1 df.bbLow then
        cfg.wBollinger else 0
  { maScore := maScore, volScore := volScore, momentumScore := momentumScore,
    macdScore := macdScore, bbScore := bbScore,
    totalScore := maScore + volScore + momentumScore + macdScore + bbScore }

/-- the record returned by get_trend_signals when a signal qualifies. -/
structure SignalOut where
  trendStrength : ℚ
  signalType : String
  confidence : ℚ
deriving DecidableEq, Repr

/-- Embedding of EarlyTrendDetector.get_trend_signals; `none` models the
Python None return (absence of a signal). -/
def getTrendSignals (df : Frame) (cfg : TrendConfig) (minScoreArg : Option ℚ)
    (dir : TrendDir) : Option SignalOut :=
  let signals := identifyTrend df cfg none dir
  let minScore := effectiveMinScore minScoreArg cfg
  if signals.totalScore ≥ minScore then
    some { trendStrength := signals.totalScore,
           signalType :=
             (if signals.totalScore > 8/10 then "strong_" else "potential_") ++
               dirName dir ++ "trend",
           confidence := signals.totalScore * 100 }
  else none

end TrendDetector

/-- Claim C5: get_trend_signals returns a record exactly when the
composite total score reaches the effective minimum score and returns
None (absence, not a zero-score record) otherwise; a returned record has
signal_type strong_(dir)trend exactly when the total score exceeds 0.8,
potential_(dir)trend otherwise, and confidence equal to the total score
times 100. -/
theorem c5_trend_signal_threshold (df : Frame) (cfg : TrendConfig)
    (minScoreArg : Option ℚ) (dir : TrendDir) :
    ((getTrendSignals df cfg minScoreArg dir).isSome ↔
      (identifyTrend df cfg none dir).totalScore ≥ effectiveMinScore minScoreArg cfg) ∧
    ((getTrendSignals df cfg minScoreArg dir) = none ↔
      ¬ (identifyTrend df cfg none dir).totalScore ≥ effectiveMinScore minScoreArg cfg) ∧
    (∀ out, getTrendSignals df cfg minScoreArg dir = some out →
      out.trendStrength = (identifyTrend df cfg none dir).totalScore ∧
      out.confidence = (identifyTrend df cfg none dir).totalScore * 100 ∧
      ((identifyTrend df cfg none dir).totalScore > 8/10 →
        out.signalType = "strong_" ++ dirName dir ++ "trend") ∧
      (¬ (identifyTrend df cfg none dir).totalScore > 8/10 →
        out.signalType = "potential_" ++ dirName dir ++ "trend")) := by
  by_cases hge : (identifyTrend df cfg none dir).totalScore ≥ effectiveMinScore minScoreArg cfg
  · refine ⟨by simp [getTrendSignals, hge], by simp [getTrendSignals, hge], ?_⟩
    intro out hout
    rw [getTrendSignals] at hout
    simp only [if_pos hge, Option.some_inj] at hout
    subst hout
    refine ⟨rfl, rfl, fun hs => ?_, fun hs => ?_⟩
    · simp [if_pos hs]
    · simp [if_neg hs]
  · refine ⟨by simp [getTrendSignals, hge], by simp [getTrendSignals, hge], ?_⟩
    intro out hout
    rw [getTrendSignals] at hout
    simp [if_neg hge] at hout

/-- Witness for C5: a frame whose indicators all align for an uptrend
under simple weights; the returned record carries the expected type and
confidence. -/
theorem c5_trend_signal_threshold_witness :
    (∀ out, getTrendSignals
        ⟨[1, 10], [1, 9], [1, 8], [1, 3], [1, 50], [1, 1], [1, 2], [1, 1], [1, 9], [1, 11], [1, 7]⟩
        ⟨2, 1/4, 1/5, 1/4, 1/5, 1/10, 2, 40, 70, 7/10⟩ none .up = some out →
      out.trendStrength = (identifyTrend
        ⟨[1, 10], [1, 9], [1, 8], [1, 3], [1, 50], [1, 1], [1, 2], [1, 1], [1, 9], [1, 11], [1, 7]⟩
        ⟨2, 1/4, 1/5, 1/4, 1/5, 1/10, 2, 40, 70, 7/10⟩ none .up).totalScore ∧
      out.confidence = (identifyTrend
        ⟨[1, 10], [1, 9], [1, 8], [1, 3], [1, 50], [1, 1], [1, 2], [1, 1], [1, 9], [1, 11], [1, 7]⟩
        ⟨2, 1/4, 1/5, 1/4, 1/5, 1/10, 2, 40, 70, 7/10⟩ none .up).totalScore * 100 ∧
      ((identifyTrend
        ⟨[1, 10], [1, 9], [1, 8], [1, 3], [1, 50], [1, 1], [1, 2], [1, 1], [1, 9], [1, 11], [1, 7]⟩
        ⟨2, 1/4, 1/5, 1/4, 1/5, 1/10, 2, 40, 70, 7/10⟩ none .up).totalScore > 8/10 →
        out.signalType = "strong_" ++ dirName .up ++ "trend") ∧
      (¬ (identifyTrend
        ⟨[1, 10], [1, 9], [1, 8], [1, 3], [1, 50], [1, 1], [1, 2], [1, 1], [1, 9], [1, 11], [1, 7]⟩
        ⟨2, 1/4, 1/5, 1/4, 1/5, 1/10, 2, 40, 70, 7/10⟩ none .up).totalScore > 8/10 →
        out.signalType = "potential_" ++ dirName .up ++ "trend")) :=
  (c5_trend_signal_threshold
    ⟨[1, 10], [1, 9], [1, 8], [1, 3], [1, 50], [1, 1], [1, 2], [1, 1], [1, 9], [1, 11], [1, 7]⟩
    ⟨2, 1/4, 1/5, 1/4, 1/5, 1/10, 2, 40, 70, 7/10⟩ none .up).2.2

/-- Claim C6: the MACD component of the composite score contributes the
configured weight exactly when a fresh cross occurred between the
previous and the current bar (uptrend: MACD at or below its signal line
on the previous bar and strictly above on the current; downtrend
symmetric), and contributes zero whenever the MACD line is merely on the
trend side on both bars without a fresh cross. -/
theorem c6_macd_fresh_cross (df : Frame) (cfg : TrendConfig) (lb : Option ℕ) :
    ((last2 df.macd ≤ last2 df.macdSig ∧ last1 df.macd > last1 df.macdSig →
        (identifyTrend df cfg lb .up).macdScore = cfg.wMacd) ∧
      (last2 df.macd > last2 df.macdSig ∧ last1 df.macd > last1 df.macdSig →
        (identifyTrend df cfg lb .up).macdScore = 0) ∧
      (¬ (last2 df.macd ≤ last2 df.macdSig ∧ last1 df.macd > last1 df.macdSig) →
        (identifyTrend df cfg lb .up).macdScore = 0)) ∧
    ((last2 df.macd ≥ last2 df.macdSig ∧ last1 df.macd < last1 df.macdSig →
        (identifyTrend df cfg lb .down).macdScore = cfg.wMacd) ∧
      (last2 df.macd < last2 df.macdSig ∧ last1 df.macd < last1 df.macdSig →
        (identifyTrend df cfg lb .down).macdScore = 0) ∧
      (¬ (last2 df.macd ≥ last2 df.macdSig ∧ last1 df.macd < last1 df.macdSig) →
        (identifyTrend df cfg lb .down).macdScore = 0)) := by
  refine ⟨⟨fun h => ?_, fun h => ?_, fun h => ?_⟩, fun h => ?_, fun h => ?_, fun h => ?_⟩
  · simp only [identifyTrend]
    rw [if_pos ⟨h.2, h.1⟩]
  · simp only [identifyTrend]
    rw [if_neg (fun hc => absurd hc.2 (not_le.mpr h.1))]
  · simp only [identifyTrend]
    rw [if_neg (fun hc => h ⟨hc.2, hc.1⟩)]
  · simp only [identifyTrend]
    rw [if_pos ⟨h.2, h.1⟩]
  · simp only [identifyTrend]
    rw [if_neg (fun hc => absurd hc.2 (not_le.mpr h.1))]
  · simp only [identifyTrend]
    rw [if_neg (fun hc => h ⟨hc.2, hc.1⟩)]

/-- Witness for C6: a concrete frame with a fresh upward MACD cross
(previous bar at or below the signal, current bar above) scores the
configured MACD weight. -/
theorem c6_macd_fresh_cross_witness :
    (last2 (⟨[1, 1], [1, 1], [1, 1], [1, 1], [1, 1], [1, 1], [0, 2], [1, 1], [1, 1], [1, 1], [1, 1]⟩ : Frame).macd ≤
        last2 (⟨[1, 1], [1, 1], [1, 1], [1, 1], [1, 1], [1, 1], [0, 2], [1, 1], [1, 1], [1, 1], [1, 1]⟩ : Frame).macdSig ∧
      last1 (⟨[1, 1], [1, 1], [1, 1], [1, 1], [1, 1], [1, 1], [0, 2], [1, 1], [1, 1], [1, 1], [1, 1]⟩ : Frame).macd >
        last1 (⟨[1, 1], [1, 1], [1, 1], [1, 1], [1, 1], [1, 1], [0, 2], [1, 1], [1, 1], [1, 1], [1, 1]⟩ : Frame).macdSig) ∧
    (identifyTrend ⟨[1, 1], [1, 1], [1, 1], [1, 1], [1, 1], [1, 1], [0, 2], [1, 1], [1, 1], [1, 1], [1, 1]⟩
      ⟨2, 1/4, 1/5, 1/4, 1/5, 1/10, 2, 40, 70, 7/10⟩ none .up).macdScore =
      (⟨2, 1/4, 1/5, 1/4, 1/5, 1/10, 2, 40, 70, 7/10⟩ : TrendConfig).wMacd := by
  refine ⟨⟨by decide, by decide⟩, ?_⟩
  exact (c6_macd_fresh_cross
    ⟨[1, 1], [1, 1], [1, 1], [1, 1], [1, 1], [1, 1], [0, 2], [1, 1], [1, 1], [1, 1], [1, 1]⟩
    ⟨2, 1/4, 1/5, 1/4, 1/5, 1/10, 2, 40, 70, 7/10⟩ none).1.1 ⟨by decide, by decide⟩

section Portfolio
/-!
Embedding of `analyze_portfolio_positions` (src/portfolio_analyzer.py).
Values that numpy/pandas would make non-finite (NaN from 0/0, ±inf from
division by zero) are `none`; arithmetic on `Option ℚ` propagates `none`
and `sumSkip` models the pandas skipna sum (NaN entries are skipped, an
all-NaN column sums to 0).  The per-stage definitions mirror the source
lines: `varianceResults` the fetch loop (37-55), `totalVarianceOf`,
`updateOf`, `tempUpdateSumOf`, `idealTable` lines 57-69, `buildPlan`
lines 72-80, `correctPlan` lines 82-90, `stdSq`/`dispersionRatioSq`
lines 93-95.  The final sort by cash change (lines 97-99) only permutes
plan rows and is omitted.
-/

/-- float division: none when the denominator is zero (numpy yields a
non-finite value there) or when either operand is already non-finite. -/
def optDiv : Option ℚ → Option ℚ → Option ℚ
  | some a, some b => if b = 0 then none else some (a / b)
  | _, _ => none

/-- float subtraction with NaN propagation. -/
def optSub : Option ℚ → Option ℚ → Option ℚ
  | some a, some b => some (a - b)
  | _, _ => none

/-- pandas Series.sum with the default skipna=True. -/
def sumSkip (l : List (Option ℚ)) : ℚ := (l.filterMap id).sum

/-- pandas Series.mean with skipna: NaN when no entry is defined. -/
def meanSkip (l : List (Option ℚ)) : Option ℚ :=
  if (l.filterMap id).length = 0 then none
  else some ((l.filterMap id).sum / ((l.filterMap id).length : ℚ))

/-- one daily OHLC bar of the yfinance history window. -/
structure Day where
  openPx : ℚ
  highPx : ℚ
  lowPx : ℚ
  closePx : ℚ
deriving DecidableEq, Repr

/-- day_range = ((High - Low) / Open).round(4). -/
def dayRange (d : Day) : Option ℚ :=
  if d.openPx = 0 then none else some (npround4 ((d.highPx - d.lowPx) / d.openPx))

/-- weighted_var: the day range scaled by the negative multiplier on a
down day (Close - Open < 0), else the unmodified range. -/
def weightedVar (negW : ℚ) (d : Day) : Option ℚ :=
  if d.closePx - d.openPx < 0 then (dayRange d).map (fun x => x * negW)
  else dayRange d

/-- a symbol's variance score: mean of the weighted range series. -/
def varianceOf (negW : ℚ) (days : List Day) : Option ℚ :=
  meanSkip (days.map (weightedVar negW))

/-- an optimizable holding row with its current_percent (line 30). -/
structure OptRow where
  symbol : String
  currentPercent : ℚ
deriving DecidableEq, Repr

/-- the variance-results list built by the fetch loop (lines 37-55): an
erroring fetch (none) or an empty history is skipped silently, every
other symbol contributes one (ticker, variance) entry in order. -/
def varianceResults (negW : ℚ) (fetch : String → Option (List Day))
    (rows : List OptRow) : List (String × Option ℚ) :=
  rows.filterMap (fun r =>
    match fetch r.symbol with
    | none => none
    | some [] => none
    | some days => some (r.symbol, varianceOf negW days))

/-- whether a symbol's history fetch succeeds and is nonempty. -/
def fetchGood (fetch : String → Option (List Day)) (s : String) : Bool :=
  match fetch s with
  | none => false
  | some [] => false
  | some (_ :: _) => true

/-- total_variance (line 59). -/
def totalVarianceOf (vt : List (String × Option ℚ)) : ℚ :=
  sumSkip (vt.map (fun p => p.2))

/-- update_size of one variance value (lines 60-64): ideal_variance
(1/count) divided by pct_variance (variance/total_variance). -/
def updateOf (vt : List (String × Option ℚ)) (v : Option ℚ) : Option ℚ :=
  optDiv (some (1 / (vt.length : ℚ))) (optDiv v (some (totalVarianceOf vt)))

/-- temp_update_sum (line 65). -/
def tempUpdateSumOf (vt : List (String × Option ℚ)) : ℚ :=
  sumSkip (vt.map (fun p => updateOf vt p.2))

/-- ideal_percent per ticker (line 69): update_size / temp_update_sum ×
(sum of current percents over the optimizable rows), rounded to whole
percentage points. -/
def idealTable (optTotalPct : ℚ) (vt : List (String × Option ℚ)) :
    List (String × Option ℚ) :=
  vt.map (fun p =>
    (p.1, (optDiv (updateOf vt p.2) (some (tempUpdateSumOf vt))).map
      (fun x => npround (x * optTotalPct))))

/-- one allocation-plan row. -/
structure PlanRow where
  symbol : String
  currentPercent : ℚ
  idealPercent : Option ℚ
  cashChange : Option ℚ
deriving DecidableEq, Repr

/-- lines 72-80: left-join the ideal percents onto the optimizable rows
by symbol (pandas merge; the first matching entry is taken — the claims
below assume distinct symbols, where the two agree) and compute
cash_change = ((ideal - current)/100 × total value) rounded. -/
def buildPlan (totalValue : ℚ) (rows : List OptRow)
    (ideals : List (String × Option ℚ)) : List PlanRow :=
  rows.map (fun r =>
    { symbol := r.symbol, currentPercent := r.currentPercent,
      idealPercent := (ideals.find? (fun p => decide (p.1 = r.symbol))).bind (fun p => p.2),
      cashChange :=
        (optSub ((ideals.find? (fun p => decide (p.1 = r.symbol))).bind (fun p => p.2))
          (some r.currentPercent)).map
            (fun x => npround (x / 100 * totalValue)) })

/-- replace the last element of a list, if any. -/
def updateLast {α : Type} (f : α → α) : List α → List α
  | [] => []
  | [a] => [f a]
  | a :: b :: t => a :: updateLast f (b :: t)

/-- total_change (line 83). -/
def totalChangeOf (plan : List PlanRow) : ℚ :=
  sumSkip (plan.map (fun p => p.cashChange))

/-- the correction applied to the last plan row (lines 84-90): its
cash_change is shifted by the plan's total cash change and its
ideal_percent re-derived from the corrected cash change. -/
def correctRow (totalValue totalChange : ℚ) (p : PlanRow) : PlanRow :=
  { p with
    cashChange := optSub p.cashChange (some totalChange),
    idealPercent := (optDiv (optSub p.cashChange (some totalChange))
      (some totalValue)).map (fun x => npround (p.currentPercent + x * 100)) }

def correctPlan (totalValue : ℚ) (plan : List PlanRow) : List PlanRow :=
  updateLast (correctRow totalValue (totalChangeOf plan)) plan

/-- the square of pandas Series.std (ddof = 1, skipna): none when fewer
than two entries are defined (pandas std is NaN there). -/
def stdSq (l : List (Option ℚ)) : Option ℚ :=
  if (l.filterMap id).length ≤ 1 then none
  else
    some (((l.filterMap id).map
      (fun x => (x - (l.filterMap id).sum / ((l.filterMap id).length : ℚ)) ^ 2)).sum /
      (((l.filterMap id).length : ℚ) - 1))

/-- the squared ratio current_std² / ideal_std² underlying the
dispersion metric ((1/ideal_std)/(1/current_std) - 1) × 100 of lines
93-95: the Python metric is finite exactly when this value is defined
(std = √stdSq, and the square root preserves definedness and zeroness). -/
def dispersionRatioSq (cur ideal : List (Option ℚ)) : Option ℚ :=
  optDiv (stdSq cur) (stdSq ideal)

/-- a holding row of the parsed portfolio CSV (Equity rows only). -/
structure Holding where
  symbol : String
  mktVal : ℚ
deriving DecidableEq, Repr

structure RebalanceOut where
  plan : List PlanRow
  dispRatioSq : Option ℚ
  totalValue : ℚ
deriving DecidableEq, Repr

/-- Embedding of analyze_portfolio_positions.  An empty variance-results
list makes the Python code raise KeyError at variance_df[variance]
(line 59), modelled as Except.error; every other degenerate input flows
through as silent `none` (NaN/∞) values inside an Except.ok result. -/
def analyzePortfolio (holdings : List Holding) (excludeStocks : List String)
    (negW : ℚ) (fetch : String → Option (List Day)) :
    Except String RebalanceOut :=
  let totalValue := (holdings.map (fun h => h.mktVal)).sum
  let rows := (holdings.filter (fun h => decide (h.symbol ∉ excludeStocks))).map
    (fun h => ({ symbol := h.symbol,
                 currentPercent := npround (h.mktVal / totalValue * 100) } : OptRow))
  let vt := varianceResults negW fetch rows
  if vt.isEmpty then Except.error "KeyError"
  else
    let plan := correctPlan totalValue (buildPlan totalValue rows
      (idealTable ((rows.map (fun r => r.currentPercent)).sum) vt))
    Except.ok
      { plan := plan,
        dispRatioSq := dispersionRatioSq
          (plan.map (fun p => some p.currentPercent))
          (plan.map (fun p => p.idealPercent)),
        totalValue := totalValue }

theorem varianceResults_eq_filter (negW : ℚ) (fetch : String → Option (List Day))
    (rows : List OptRow) :
    varianceResults negW fetch rows =
      (rows.filter (fun r => fetchGood fetch r.symbol)).map
        (fun r => (r.symbol, varianceOf negW ((fetch r.symbol).getD []))) := by
  induction rows with
  | nil => rfl
  | cons r t ih =>
    simp only [varianceResults] at ih ⊢
    rw [List.filterMap_cons, List.filter_cons]
    cases hf : fetch r.symbol with
    | none => simp [fetchGood, hf, ih]
    | some days =>
      cases days with
      | nil => simp [fetchGood, hf, ih]
      | cons d ds => simp [fetchGood, hf, ih]

end Portfolio

/-- Claim C9: a symbol whose history fetch raises or returns an empty
series is silently dropped from the optimization set — the variance
table equals the one computed over the successfully fetched symbols
only, so the count (and with it ideal_variance = 1/count and the
variance shares) shrinks accordingly — and the run continues (returns a
plan rather than failing) as long as one optimizable symbol survives. -/
theorem c9_failed_fetch_silently_dropped (negW : ℚ)
    (fetch : String → Option (List Day)) (rows : List OptRow) :
    (varianceResults negW fetch rows =
      (rows.filter (fun r => fetchGood fetch r.symbol)).map
        (fun r => (r.symbol, varianceOf negW ((fetch r.symbol).getD [])))) ∧
    ((varianceResults negW fetch rows).length =
      (rows.filter (fun r => fetchGood fetch r.symbol)).length) ∧
    (varianceResults negW fetch rows =
      varianceResults negW fetch (rows.filter (fun r => fetchGood fetch r.symbol))) ∧
    (∀ (holdings : List Holding) (excl : List String),
      (∃ h ∈ holdings, h.symbol ∉ excl ∧ fetchGood fetch h.symbol) →
      ∃ out, analyzePortfolio holdings excl negW fetch = Except.ok out) := by
  refine ⟨varianceResults_eq_filter negW fetch rows, ?_, ?_, ?_⟩
  · rw [varianceResults_eq_filter negW fetch rows, List.length_map]
  · rw [varianceResults_eq_filter negW fetch rows,
      varianceResults_eq_filter negW fetch (rows.filter (fun r => fetchGood fetch r.symbol)),
      List.filter_filter]
    simp
  · intro holdings excl hex
    rcases hex with ⟨h, hh, hnex, hgood⟩
    simp only [analyzePortfolio]
    set totalValue := (holdings.map (fun x => x.mktVal)).sum with htv
    set rows' := (holdings.filter (fun x => decide (x.symbol ∉ excl))).map
      (fun x => ({ symbol := x.symbol,
                   currentPercent := npround (x.mktVal / totalValue * 100) } : OptRow)) with hrows
    have hmemf : h ∈ holdings.filter (fun x => decide (x.symbol ∉ excl)) :=
      List.mem_filter.mpr ⟨hh, by simpa using hnex⟩
    have hmemr : OptRow.mk h.symbol (npround (h.mktVal / totalValue * 100)) ∈ rows' :=
      List.mem_map_of_mem _ hmemf
    have hmemfil : OptRow.mk h.symbol (npround (h.mktVal / totalValue * 100)) ∈
        rows'.filter (fun r => fetchGood fetch r.symbol) :=
      List.mem_filter.mpr ⟨hmemr, hgood⟩
    have hvtne : varianceResults negW fetch rows' ≠ [] := by
      rw [varianceResults_eq_filter]
      intro hcon
      rw [List.map_eq_nil_iff] at hcon
      rw [hcon] at hmemfil
      cases hmemfil
    have hvt : (varianceResults negW fetch rows').isEmpty = false := by
      cases hx : varianceResults negW fetch rows' with
      | nil => exact absurd hx hvtne
      | cons a t => rfl
    rw [if_neg (by simp [hvt])]
    exact ⟨_, rfl⟩

/-- Witness for C9: with one good symbol and one whose fetch errors,
the variance table equals the good-symbol-only table and the run still
returns a plan. -/
theorem c9_failed_fetch_silently_dropped_witness :
    ((∃ h ∈ [Holding.mk "A" 60, Holding.mk "B" 40], h.symbol ∉ ([] : List String) ∧
        fetchGood (fun s => if s = "A" then some [Day.mk 1 2 1 2] else none) h.symbol) ∧
      varianceResults 10 (fun s => if s = "A" then some [Day.mk 1 2 1 2] else none)
        [OptRow.mk "A" 60, OptRow.mk "B" 40] =
        [("A", varianceOf 10 [Day.mk 1 2 1 2])]) ∧
    ∃ out, analyzePortfolio [Holding.mk "A" 60, Holding.mk "B" 40] []
      10 (fun s => if s = "A" then some [Day.mk 1 2 1 2] else none) = Except.ok out := by
  constructor
  · constructor
    · exact ⟨Holding.mk "A" 60, by simp, by simp, by decide⟩
    · have h := (c9_failed_fetch_silently_dropped 10
        (fun s => if s = "A" then some [Day.mk 1 2 1 2] else none)
        [OptRow.mk "A" 60, OptRow.mk "B" 40]).1
      rw [h]
      rfl
  · exact (c9_failed_fetch_silently_dropped 10
      (fun s => if s = "A" then some [Day.mk 1 2 1 2] else none)
      [OptRow.mk "A" 60, OptRow.mk "B" 40]).2.2.2
      [Holding.mk "A" 60, Holding.mk "B" 40] []
      ⟨Holding.mk "A" 60, by simp, by simp, by decide⟩

theorem sumSkip_congr_map {α : Type} (l : List α) (f : α → Option ℚ) (g : α → ℚ)
    (h : ∀ x ∈ l, f x = some (g x)) : sumSkip (l.map f) = (l.map g).sum := by
  induction l with
  | nil => rfl
  | cons a t ih =>
    rw [List.map_cons, List.map_cons, List.sum_cons]
    rw [sumSkip, List.filterMap_cons, h a (List.mem_cons_self a t)]
    rw [← ih (fun x hx => h x (List.mem_cons_of_mem _ hx)), sumSkip]
    simp

theorem sumSkip_append (l₁ l₂ : List (Option ℚ)) :
    sumSkip (l₁ ++ l₂) = sumSkip l₁ + sumSkip l₂ := by
  rw [sumSkip, sumSkip, sumSkip, List.filterMap_append, List.sum_append]

theorem findSymbolMap (rows : List OptRow) (g : OptRow → Option ℚ)
    (hnd : (rows.map (fun r => r.symbol)).Nodup) (r : OptRow) (hr : r ∈ rows) :
    (rows.map (fun x => (x.symbol, g x))).find? (fun p => decide (p.1 = r.symbol)) =
      some (r.symbol, g r) := by
  induction rows with
  | nil => cases hr
  | cons a t ih =>
    rw [List.map_cons]
    rcases List.mem_cons.mp hr with rfl | hrt
    · rw [List.find?_cons_of_pos _ (by simp)]
    · rw [List.map_cons] at hnd
      have hnd' := List.nodup_cons.mp hnd
      have hne : a.symbol ≠ r.symbol := by
        intro h
        exact hnd'.1 (h ▸ List.mem_map_of_mem _ hrt)
      rw [List.find?_cons_of_neg _ (by simpa using hne)]
      exact ih hnd'.2 hrt

theorem updateLast_concat {α : Type} (f : α → α) (l : List α) (a : α) :
    updateLast f (l ++ [a]) = l ++ [f a] := by
  induction l with
  | nil => rfl
  | cons x xs ih =>
    cases xs with
    | nil => rfl
    | cons y ys =>
      rw [List.cons_append]
      show x :: updateLast f ((y :: ys) ++ [a]) = x :: ((y :: ys) ++ [f a])
      rw [ih]

theorem abs_list_sum_le {α : Type} (l : List α) (g : α → ℚ) :
    |(l.map g).sum| ≤ (l.map (fun x => |g x|)).sum := by
  induction l with
  | nil => simp
  | cons a t ih =>
    rw [List.map_cons, List.map_cons, List.sum_cons, List.sum_cons]
    calc |g a + (t.map g).sum| ≤ |g a| + |(t.map g).sum| := abs_add _ _
      _ ≤ |g a| + (t.map (fun x => |g x|)).sum := by linarith

theorem list_sum_le_length_mul {α : Type} (l : List α) (g : α → ℚ) (c : ℚ)
    (h : ∀ x ∈ l, g x ≤ c) : (l.map g).sum ≤ (l.length : ℚ) * c := by
  induction l with
  | nil => simp
  | cons a t ih =>
    rw [List.map_cons, List.sum_cons, List.length_cons]
    have h1 := h a (List.mem_cons_self a t)
    have h2 := ih (fun x hx => h x (List.mem_cons_of_mem _ hx))
    push_cast
    nlinarith [h1, h2]

theorem list_sum_map_sub {α : Type} (l : List α) (f g : α → ℚ) :
    (l.map (fun x => f x - g x)).sum = (l.map f).sum - (l.map g).sum := by
  induction l with
  | nil => simp
  | cons a t ih => simp [ih]; ring

theorem list_sum_map_mul_right {α : Type} (l : List α) (f : α → ℚ) (c : ℚ) :
    (l.map (fun x => f x * c)).sum = (l.map f).sum * c := by
  induction l with
  | nil => simp
  | cons a t ih => simp [ih]; ring

/-- Claim C8 evaluation (the claim fails on the code): on a degenerate
input whose variance sum is zero (every fetched day has High = Low, so
both symbols score variance 0), analyze_portfolio_positions reports no
failure — it returns a normal result whose ideal_percent and
cash_change columns and dispersion metric are silently non-finite
(NaN, modelled none).  Only the empty-optimization-set case raises (an
incidental KeyError, modelled Except.error), so the degenerate inputs
of the claim are not reported as distinct explicit failures. -/
theorem c8_all_zero_variance_silent_nan : analyzePortfolio [Holding.mk "A" 50, Holding.mk "B" 50] [] 10
    (fun _ => some [Day.mk 1 1 1 1]) =
    Except.ok (RebalanceOut.mk
      [PlanRow.mk "A" 50 none none, PlanRow.mk "B" 50 none none] none 100) := by
  have h0 : npround (0 : ℚ) = 0 := by exact_mod_cast npround_intCast 0
  have h50 : npround (50 : ℚ) = 50 := by exact_mod_cast npround_intCast 50
  have hd : dayRange (Day.mk 1 1 1 1) = some 0 := by
    simp [dayRange, npround4]
    norm_num [h0]
  have hw : weightedVar 10 (Day.mk 1 1 1 1) = some 0 := by
    simp [weightedVar, hd]
  have hv : varianceOf 10 [Day.mk 1 1 1 1] = some 0 := by
    simp [varianceOf, meanSkip, hw]
  have hvt : varianceResults 10 (fun _ => some [Day.mk 1 1 1 1])
      [OptRow.mk "A" 50, OptRow.mk "B" 50] = [("A", some 0), ("B", some 0)] := by
    simp [varianceResults, hv]
  have htvz : totalVarianceOf [("A", some 0), ("B", some 0)] = 0 := by
    simp [totalVarianceOf, sumSkip]
  have hupd : updateOf [("A", some 0), ("B", some 0)] (some 0) = none := by
    simp [updateOf, htvz, optDiv]
  have hideal : idealTable 100 [("A", some 0), ("B", some 0)] = [("A", none), ("B", none)] := by
    simp [idealTable, hupd, optDiv]
  have hplan : buildPlan 100 [OptRow.mk "A" 50, OptRow.mk "B" 50] [("A", none), ("B", none)] =
      [PlanRow.mk "A" 50 none none, PlanRow.mk "B" 50 none none] := by
    simp [buildPlan, List.find?, optSub]
  have hcorr : correctPlan 100 [PlanRow.mk "A" 50 none none, PlanRow.mk "B" 50 none none] =
      [PlanRow.mk "A" 50 none none, PlanRow.mk "B" 50 none none] := by
    simp [correctPlan, totalChangeOf, sumSkip, updateLast, correctRow, optSub, optDiv]
  have hdisp : dispersionRatioSq [some 50, some 50] [none, none] = none := by
    simp [dispersionRatioSq, stdSq, optDiv]
  simp only [analyzePortfolio]
  norm_num [hvt, hideal, hplan, hcorr, hdisp, h50]


/-- closed form of update_size for one row when every optimizable symbol
fetched successfully with a positive variance score. -/
def updateSizeOf (rows : List OptRow) (var : OptRow → ℚ) (r : OptRow) : ℚ :=
  (1 / (rows.length : ℚ)) / (var r / (rows.map var).sum)

theorem idealTable_pos_eq (C : ℚ) (rows : List OptRow) (var : OptRow → ℚ)
    (hne : rows ≠ []) (hpos : ∀ r ∈ rows, 0 < var r) :
    idealTable C (rows.map (fun r => (r.symbol, some (var r)))) =
      rows.map (fun r => (r.symbol, some (npround (updateSizeOf rows var r /
        (rows.map (updateSizeOf rows var)).sum * C)))) := by
  have hV : 0 < (rows.map var).sum := by
    apply List.sum_pos
    · intro x hx
      rcases List.mem_map.mp hx with ⟨r, hr, rfl⟩
      exact hpos r hr
    · simpa using hne
  have htv : totalVarianceOf (rows.map (fun r => (r.symbol, some (var r)))) =
      (rows.map var).sum := by
    rw [totalVarianceOf, List.map_map]
    exact sumSkip_congr_map rows _ var (fun x _ => rfl)
  have hupd : ∀ r ∈ rows,
      updateOf (rows.map (fun x => (x.symbol, some (var x)))) (some (var r)) =
        some (updateSizeOf rows var r) := by
    intro r hr
    rw [updateOf, htv]
    have h1 : optDiv (some (var r)) (some ((rows.map var)).sum) =
        some (var r / (rows.map var).sum) := by
      simp [optDiv, ne_of_gt hV]
    rw [h1]
    have h2 : var r / (rows.map var).sum ≠ 0 :=
      div_ne_zero (ne_of_gt (hpos r hr)) (ne_of_gt hV)
    simp [optDiv, h2, updateSizeOf]
  have htus : tempUpdateSumOf (rows.map (fun x => (x.symbol, some (var x)))) =
      (rows.map (updateSizeOf rows var)).sum := by
    rw [tempUpdateSumOf, List.map_map]
    exact sumSkip_congr_map rows _ _ (fun r hr => hupd r hr)
  have hn0 : (0 : ℚ) < (rows.length : ℚ) := by
    have : 0 < rows.length := List.length_pos.mpr hne
    exact_mod_cast this
  have hUpos : 0 < (rows.map (updateSizeOf rows var)).sum := by
    apply List.sum_pos
    · intro x hx
      rcases List.mem_map.mp hx with ⟨r, hr, rfl⟩
      exact div_pos (by positivity) (div_pos (hpos r hr) hV)
    · simpa using hne
  rw [idealTable, List.map_map]
  apply List.map_congr_left
  intro r hr
  simp only [Function.comp]
  rw [hupd r hr, htus]
  simp [optDiv, ne_of_gt hUpos]


theorem list_sum_map_add {α : Type} (l : List α) (f g : α → ℚ) :
    (l.map (fun x => f x + g x)).sum = (l.map f).sum + (l.map g).sum := by
  induction l with
  | nil => simp
  | cons a t ih => simp [ih]; ring

/-- closed form of the rounded ideal_percent of one row. -/
def idealPctOf (C : ℚ) (rows : List OptRow) (var : OptRow → ℚ) (r : OptRow) : ℚ :=
  npround (updateSizeOf rows var r / (rows.map (updateSizeOf rows var)).sum * C)

/-- closed form of the rounded pre-correction cash_change of one row. -/
def cashOf (T C : ℚ) (rows : List OptRow) (var : OptRow → ℚ) (r : OptRow) : ℚ :=
  npround ((idealPctOf C rows var r - r.currentPercent) / 100 * T)

theorem buildPlan_pos_eq (T C : ℚ) (rows : List OptRow) (var : OptRow → ℚ)
    (hne : rows ≠ []) (hnd : (rows.map (fun r => r.symbol)).Nodup)
    (hpos : ∀ r ∈ rows, 0 < var r) :
    buildPlan T rows (idealTable C (rows.map (fun r => (r.symbol, some (var r))))) =
      rows.map (fun r => PlanRow.mk r.symbol r.currentPercent
        (some (idealPctOf C rows var r)) (some (cashOf T C rows var r))) := by
  rw [idealTable_pos_eq C rows var hne hpos, buildPlan]
  apply List.map_congr_left
  intro r hr
  have hf := findSymbolMap rows
    (fun x => some (idealPctOf C rows var x)) hnd r hr
  rw [show (fun x => (x.symbol, some (npround (updateSizeOf rows var x /
      (rows.map (updateSizeOf rows var)).sum * C)))) =
    (fun x => (x.symbol, some (idealPctOf C rows var x))) from rfl, hf]
  simp [optSub, cashOf]


/-- Claim C4: for a rebalancing run with a non-empty optimization set
(all symbols fetched with positive variance scores, distinct symbols,
positive total portfolio value), after the correction step that adjusts
exactly the last row, the cash changes of the plan sum to 0 exactly, and
the ideal percents sum to the current percents up to the whole-percent
roundings (quantitatively: within 1/2 + 50(n+1)/T percent, the residual
of one rounding per cash change plus the final re-rounding). -/
theorem c4_plan_sums (T : ℚ) (rows : List OptRow) (var : OptRow → ℚ)
    (hne : rows ≠ [])
    (hnd : (rows.map (fun r => r.symbol)).Nodup)
    (hT : 0 < T)
    (hpos : ∀ r ∈ rows, 0 < var r) :
    sumSkip ((correctPlan T (buildPlan T rows (idealTable
        ((rows.map (fun r => r.currentPercent)).sum)
        (rows.map (fun r => (r.symbol, some (var r))))))).map (fun p => p.cashChange)) = 0 ∧
    |sumSkip ((correctPlan T (buildPlan T rows (idealTable
        ((rows.map (fun r => r.currentPercent)).sum)
        (rows.map (fun r => (r.symbol, some (var r))))))).map (fun p => p.idealPercent)) -
      (rows.map (fun r => r.currentPercent)).sum| ≤
      1/2 + 50 * ((rows.length : ℚ) + 1) / T := by
  set C := (rows.map (fun r => r.currentPercent)).sum with hC
  set I := idealPctOf C rows var with hIdef
  set K := cashOf T C rows var with hKdef
  set pr : OptRow → PlanRow := fun r => PlanRow.mk r.symbol r.currentPercent
    (some (I r)) (some (K r)) with hpr
  have hbp : buildPlan T rows (idealTable C
      (rows.map (fun r => (r.symbol, some (var r))))) = rows.map pr :=
    buildPlan_pos_eq T C rows var hne hnd hpos
  set rl := rows.getLast hne with hrl
  set front := rows.dropLast with hfrontdef
  have hsplit : front ++ [rl] = rows := List.dropLast_append_getLast hne
  have hsumK : (rows.map K).sum = (front.map K).sum + K rl := by
    conv_lhs => rw [← hsplit]
    rw [List.map_append, List.sum_append]
    simp
  have hsumI : (rows.map I).sum = (front.map I).sum + I rl := by
    conv_lhs => rw [← hsplit]
    rw [List.map_append, List.sum_append]
    simp
  have htc : totalChangeOf (rows.map pr) = (rows.map K).sum := by
    rw [totalChangeOf, List.map_map]
    exact sumSkip_congr_map rows _ K (fun r _ => rfl)
  have hplansplit : rows.map pr = front.map pr ++ [pr rl] := by
    conv_lhs => rw [← hsplit]
    rw [List.map_append]
    simp
  have hcp : correctPlan T (rows.map pr) =
      front.map pr ++ [correctRow T ((rows.map K).sum) (pr rl)] := by
    rw [correctPlan, htc]
    conv_lhs => rw [hplansplit]
    rw [updateLast_concat]
  have hcr : correctRow T ((rows.map K).sum) (pr rl) =
      PlanRow.mk rl.symbol rl.currentPercent
        (some (npround (rl.currentPercent + (K rl - (rows.map K).sum) / T * 100)))
        (some (K rl - (rows.map K).sum)) := by
    rw [correctRow]
    simp [optSub, optDiv, ne_of_gt hT, hpr]
  rw [hbp, hcp, hcr]
  constructor
  · rw [List.map_append, sumSkip_append, List.map_map,
      sumSkip_congr_map front ((fun p : PlanRow => p.cashChange) ∘ pr) K (fun r _ => rfl)]
    simp only [List.map_cons, List.map_nil, sumSkip, List.filterMap_cons, id,
      List.filterMap_nil, List.sum_cons, List.sum_nil]
    linarith [hsumK]
  · rw [List.map_append, sumSkip_append, List.map_map,
      sumSkip_congr_map front ((fun p : PlanRow => p.idealPercent) ∘ pr) I (fun r _ => rfl)]
    simp only [List.map_cons, List.map_nil, sumSkip, List.filterMap_cons, id,
      List.filterMap_nil, List.sum_cons, List.sum_nil]
    set d : OptRow → ℚ := fun r => K r - (I r - r.currentPercent) / 100 * T with hd
    have hdabs : ∀ r ∈ rows, |d r| ≤ 1/2 := by
      intro r hr
      have h := abs_npround_sub_le ((I r - r.currentPercent) / 100 * T)
      have hKr : K r = npround ((I r - r.currentPercent) / 100 * T) := by
        rw [hKdef]
        rfl
      rw [hd]
      simp only [hKr]
      exact h
    set D := (rows.map d).sum with hD
    have hDabs : |D| ≤ (rows.length : ℚ) / 2 := by
      calc |D| ≤ (rows.map (fun r => |d r|)).sum := abs_list_sum_le rows d
        _ ≤ (rows.length : ℚ) * (1/2) :=
            list_sum_le_length_mul rows _ _ (fun r hr => hdabs r hr)
        _ = (rows.length : ℚ) / 2 := by ring
    have hSsum : (rows.map K).sum = ((rows.map I).sum - C) / 100 * T + D := by
      have h1 : ∀ r ∈ rows, K r = (I r - r.currentPercent) / 100 * T + d r := by
        intro r hr
        rw [hd]
        ring
      calc (rows.map K).sum
          = (rows.map (fun r => (I r - r.currentPercent) / 100 * T + d r)).sum := by
            exact congrArg List.sum (List.map_congr_left h1)
        _ = (rows.map (fun r => (I r - r.currentPercent) / 100 * T)).sum + D := by
            rw [hD, list_sum_map_add]
        _ = (rows.map (fun r => (I r - r.currentPercent) * (T / 100))).sum + D := by
            congr 1
            apply congrArg List.sum
            apply List.map_congr_left
            intro r hr
            ring
        _ = ((rows.map (fun r => I r - r.currentPercent)).sum) * (T / 100) + D := by
            rw [list_sum_map_mul_right]
        _ = ((rows.map I).sum - C) / 100 * T + D := by
            rw [list_sum_map_sub, hC]
            ring
    have hrlmem : rl ∈ rows := List.getLast_mem hne
    have hdrl : |d rl| ≤ 1/2 := hdabs rl hrlmem
    have hx := abs_npround_sub_le (rl.currentPercent + (K rl - (rows.map K).sum) / T * 100)
    have hkey : (front.map I).sum +
        npround (rl.currentPercent + (K rl - (rows.map K).sum) / T * 100) - C =
        (npround (rl.currentPercent + (K rl - (rows.map K).sum) / T * 100) -
          (rl.currentPercent + (K rl - (rows.map K).sum) / T * 100)) +
        (d rl - D) * (100 / T) := by
      have hfrontI : (front.map I).sum = (rows.map I).sum - I rl := by linarith [hsumI]
      have hKrl : K rl = (I rl - rl.currentPercent) / 100 * T + d rl := by
        rw [hd]
        ring
      rw [hfrontI]
      rw [hSsum, hKrl]
      field_simp
      ring
    have htri : |d rl - D| ≤ |d rl| + |D| := abs_sub _ _
    have h100T : (0 : ℚ) < 100 / T := by positivity
    rw [show (front.map I).sum +
        (npround (rl.currentPercent + (K rl - (rows.map K).sum) / T * 100) + 0) - C =
        (front.map I).sum +
        npround (rl.currentPercent + (K rl - (rows.map K).sum) / T * 100) - C by ring, hkey]
    calc |(npround (rl.currentPercent + (K rl - (rows.map K).sum) / T * 100) -
          (rl.currentPercent + (K rl - (rows.map K).sum) / T * 100)) +
          (d rl - D) * (100 / T)|
        ≤ |npround (rl.currentPercent + (K rl - (rows.map K).sum) / T * 100) -
            (rl.currentPercent + (K rl - (rows.map K).sum) / T * 100)| +
          |(d rl - D) * (100 / T)| := abs_add _ _
      _ = |npround (rl.currentPercent + (K rl - (rows.map K).sum) / T * 100) -
            (rl.currentPercent + (K rl - (rows.map K).sum) / T * 100)| +
          |d rl - D| * (100 / T) := by rw [abs_mul, abs_of_pos h100T]
      _ ≤ 1/2 + (1/2 + (rows.length : ℚ) / 2) * (100 / T) := by
          have hb : |d rl - D| ≤ 1/2 + (rows.length : ℚ) / 2 := by linarith
          nlinarith [hx, hb, h100T, mul_le_mul_of_nonneg_right hb (le_of_lt h100T)]
      _ = 1/2 + 50 * ((rows.length : ℚ) + 1) / T := by
          field_simp
          ring


/-- Witness for C4 at a concrete two-row portfolio (A twice as volatile
as B): the corrected plan's cash changes sum to zero exactly. -/
theorem c4_plan_sums_witness :
    (([OptRow.mk "A" 50, OptRow.mk "B" 50] : List OptRow) ≠ [] ∧
      (([OptRow.mk "A" 50, OptRow.mk "B" 50] : List OptRow).map (fun r => r.symbol)).Nodup ∧
      (0 : ℚ) < 1000 ∧
      (∀ r ∈ ([OptRow.mk "A" 50, OptRow.mk "B" 50] : List OptRow),
        0 < (fun x : OptRow => if x.symbol = "A" then (2 : ℚ) else 1) r)) ∧
    sumSkip ((correctPlan 1000 (buildPlan 1000 [OptRow.mk "A" 50, OptRow.mk "B" 50]
      (idealTable ((([OptRow.mk "A" 50, OptRow.mk "B" 50] : List OptRow).map
          (fun r => r.currentPercent)).sum)
        (([OptRow.mk "A" 50, OptRow.mk "B" 50] : List OptRow).map
          (fun r => (r.symbol, some ((fun x : OptRow =>
            if x.symbol = "A" then (2 : ℚ) else 1) r))))))).map
      (fun p => p.cashChange)) = 0 := by
  have hne : ([OptRow.mk "A" 50, OptRow.mk "B" 50] : List OptRow) ≠ [] := by simp
  have hnd : (([OptRow.mk "A" 50, OptRow.mk "B" 50] : List OptRow).map
      (fun r => r.symbol)).Nodup := by decide
  have hT : (0 : ℚ) < 1000 := by norm_num
  have hpos : ∀ r ∈ ([OptRow.mk "A" 50, OptRow.mk "B" 50] : List OptRow),
      0 < (fun x : OptRow => if x.symbol = "A" then (2 : ℚ) else 1) r := by
    intro r hr
    rcases List.mem_cons.mp hr with rfl | hr2
    · norm_num
    · rcases List.mem_cons.mp hr2 with rfl | hr3
      · simp only []
        rw [if_neg (by decide)]
        norm_num
      · cases hr3
  exact ⟨⟨hne, hnd, hT, hpos⟩,
    (c4_plan_sums 1000 [OptRow.mk "A" 50, OptRow.mk "B" 50]
      (fun x : OptRow => if x.symbol = "A" then (2 : ℚ) else 1)
      hne hnd hT hpos).1⟩


end FFC
